import Mathlib

/-!
Verification of the binclude embedded virtual filesystem and its
build-time pipeline (compression, bundle partitioning).

The Go source is shallowly embedded: byte slices become `List Nat`
(each element a byte value, < 256 for well-formed data), Go strings
become `String`, the `Files` map becomes an association list, and the
in-place mutation of `File` records performed by `Open`, `Read` and
`Close` becomes explicit state passing on the `FileSystem` value.
-/

namespace Binclude

/-! ### Go string helpers

Go `strings.TrimPrefix`, `strings.HasSuffix` and the `path/filepath`
functions `Clean` and `Dir` (for slash-separated paths), embedded on
the character lists underlying Lean strings. -/

/-- Go strings.TrimPrefix name "./" as used by FileSystem.Open:
strips one leading "./" occurrence, if present. -/
def trimDot (s : String) : String :=
  if s.data.take 2 = ['.', '/'] then ⟨s.data.drop 2⟩ else s

/-- Go strings.HasSuffix. -/
def strHasSuffix (s suffix : String) : Bool :=
  suffix.data.isSuffixOf s.data

/-- Split a character list on the slash separator. -/
def splitSlash : List Char → List (List Char)
  | [] => [[]]
  | c :: rest =>
    if c = '/' then [] :: splitSlash rest
    else
      match splitSlash rest with
      | s :: ss => (c :: s) :: ss
      | [] => [[c]]

/-- One step of the path-cleaning stack machine: ignore empty and dot
segments, resolve dot-dot against the stack, push ordinary segments.
This is the segment form of Go filepath.Clean for slash paths. -/
def cleanPush (rooted : Bool) (out : List (List Char)) (seg : List Char) : List (List Char) :=
  if seg = [] ∨ seg = ['.'] then out
  else if seg = ['.', '.'] then
    match out with
    | [] => if rooted then [] else [seg]
    | top :: rest => if top = ['.', '.'] then seg :: out else rest
  else seg :: out

/-- Join segments back with slashes. -/
def joinSlash : List (List Char) → List Char
  | [] => []
  | [s] => s
  | s :: rest => s ++ '/' :: joinSlash rest

/-- Go filepath.Clean for slash-separated paths. -/
def pathClean (s : String) : String :=
  let l := s.data
  let rooted := l.head? = some '/'
  let out := ((splitSlash l).foldl (cleanPush rooted) []).reverse
  if rooted then
    if out = [] then "/" else ⟨'/' :: joinSlash out⟩
  else
    if out = [] then "." else ⟨joinSlash out⟩

/-- Go filepath.Dir: everything up to and including the final slash,
cleaned; "." when the path holds no slash. -/
def pathDir (s : String) : String :=
  pathClean ⟨(s.data.reverse.dropWhile (fun c => c ≠ '/')).reverse⟩

/-! ### Data model -/

/-- Compression tag from the source: None or Gzip. -/
inductive Compression where
  | None
  | Gzip
  deriving DecidableEq, Repr

/-- Go os.FileMode, reduced to the parts the source reads: the
directory flag and the permission bits. -/
structure FileMode where
  isDir : Bool
  permBits : Nat
  deriving DecidableEq, Repr

/-- Go Mode().Perm() masks with 0o777, keeping the low nine bits. -/
def FileMode.Perm (m : FileMode) : Nat := m.permBits % 512

/-- File record of the source. The transient fields reader and path
are mutated in place by Open, Read and Close in Go; here the record
is updated functionally inside the owning FileSystem. The reader
models a bytes.Reader: the slice it was constructed over plus the
current offset; none models a nil reader (a closed handle). -/
structure File where
  Filename : String
  Mode : FileMode
  ModTime : Nat
  Content : List Nat
  Compression : Compression
  reader : Option (List Nat × Nat)
  path : String
  deriving DecidableEq, Repr

/-- FileSystem wraps the Files map (path to record); the association
list stands in for the Go map, keys unique in every store the program
builds. -/
structure FileSystem where
  Files : List (String × File)
  deriving DecidableEq, Repr

/-- Go os.PathError as built by Open: operation, path, message. -/
structure PathError where
  op : String
  path : String
  msg : String
  deriving DecidableEq, Repr

/-- The error Open raises for a path absent from the store. -/
def notFoundErr (p : String) : PathError :=
  ⟨"open", p, "File does not exist in binclude map"⟩

/-- Map lookup: first entry with the given key. -/
def lookupFile (fs : FileSystem) (p : String) : Option File :=
  (fs.Files.find? (fun pf => pf.1 == p)).map (fun pf => pf.2)

/-- In-place update of the record stored under a key: the entry with
that key is rewritten, every other entry kept. -/
def setRecord : List (String × File) → String → (File → File) → List (String × File)
  | [], _, _ => []
  | pf :: rest, key, g =>
    if pf.1 == key then (pf.1, g pf.2) :: setRecord rest key g
    else pf :: setRecord rest key g

/-- The in-place field updates Open performs on the found record: a
fresh bytes.Reader over the content at offset zero, the opened path,
and (left implicit here) the back-reference to the store. -/
def openUpd (n : String) (f : File) : File :=
  { f with reader := some (f.Content, 0), path := n }

/-- The in-place field update Close performs: the reader reference of
the record is set to nil. -/
def closeUpd (f : File) : File := { f with reader := none }

/-- FileSystem.Open (non-debug path): strip one leading "./", look the
name up, and on success store a fresh bytes.Reader over the content,
the opened path and the back-reference into the record itself. The
returned handle is that shared record, identified here by its key. -/
def FileSystem.Open (fs : FileSystem) (name : String) :
    FileSystem × Except PathError String :=
  match lookupFile fs (trimDot name) with
  | some _ =>
    (⟨setRecord fs.Files (trimDot name) (openUpd (trimDot name))⟩, .ok (trimDot name))
  | none => (fs, .error (notFoundErr (trimDot name)))

/-- File.Close applied to the record a handle names. -/
def closeRecord (fs : FileSystem) (h : String) : FileSystem :=
  ⟨setRecord fs.Files h closeUpd⟩

/-- Result of one File.Read call. Reading through a nil reader is a
nil-pointer dereference in Go; it is modelled as the failure value
nilReader, distinct from eof and from any successful read. -/
inductive ReadResult where
  | bytes (bs : List Nat)
  | eof
  | nilReader
  deriving DecidableEq, Repr

/-- File.Read delegating to the stored bytes.Reader: at or past the
end it reports eof; otherwise it yields min bufLen remaining bytes and
advances the shared cursor of the record. -/
def FileSystem.ReadHandle (fs : FileSystem) (h : String) (bufLen : Nat) :
    FileSystem × ReadResult :=
  match lookupFile fs h with
  | none => (fs, .nilReader)
  | some f =>
    match f.reader with
    | none => (fs, .nilReader)
    | some (data, pos) =>
      if data.length ≤ pos then (fs, .eof)
      else
        (⟨setRecord fs.Files h (fun g =>
            { g with reader := some (data, pos + ((data.drop pos).take bufLen).length) })⟩,
         .bytes ((data.drop pos).take bufLen))

/-- FileInfo snapshot materialized by File.Stat. -/
structure FileInfo where
  infoName : String
  mode : FileMode
  modtime : Nat
  size : Nat
  deriving DecidableEq, Repr

/-- File.Stat: snapshot of name, mode, size and modtime; never fails. -/
def File.statInfo (f : File) : FileInfo :=
  ⟨f.Filename, f.Mode, f.ModTime, f.Content.length⟩

/-- FileSystem.Stat: open, stat, close (the deferred Close runs on the
shared record before the call returns). -/
def FileSystem.Stat (fs : FileSystem) (name : String) :
    FileSystem × Except PathError FileInfo :=
  match fs.Open name with
  | (fs₁, .error e) => (fs₁, .error e)
  | (fs₁, .ok h) =>
    match lookupFile fs₁ h with
    | none => (fs₁, .error (notFoundErr h))
    | some f => (closeRecord fs₁ h, .ok f.statInfo)

/-- File.Readdir of an opened record (the count argument of the source
is ignored by its body): the containing directory is the opened path
itself for a directory, else the parent of the opened path; every
record of the store whose key has that parent is reported. -/
def FileSystem.readdirOf (fs : FileSystem) (f : File) : List FileInfo :=
  (fs.Files.filter (fun pf =>
      pathDir pf.1 = (if f.Mode.isDir then f.path else pathDir f.path))).map
    (fun pf => pf.2.statInfo)

/-- Comparison used by the sort.Slice call in ReadDir. -/
def infoLe (a b : FileInfo) : Prop := a.infoName ≤ b.infoName

instance : DecidableRel infoLe := fun a b =>
  inferInstanceAs (Decidable (a.infoName ≤ b.infoName))

/-- FileSystem.ReadDir: open, Readdir(-1), Close, then sort the
entries by name (sort.Slice with a name comparison). -/
def FileSystem.ReadDir (fs : FileSystem) (dirname : String) :
    FileSystem × Except PathError (List FileInfo) :=
  match fs.Open dirname with
  | (fs₁, .error e) => (fs₁, .error e)
  | (fs₁, .ok h) =>
    match lookupFile fs₁ h with
    | none => (fs₁, .error (notFoundErr h))
    | some f =>
      (closeRecord fs₁ h, .ok (List.insertionSort infoLe (fs₁.readdirOf f)))

/-! ### Host filesystem model for CopyFile -/

/-- A file of the surrounding host filesystem: permission bits and
byte content. -/
structure HostFile where
  perm : Nat
  hostContent : List Nat
  deriving DecidableEq, Repr

/-- The host filesystem as a flat path map. -/
abbrev HostFS := List (String × HostFile)

/-- Lookup on the host filesystem. -/
def hostLookup (host : HostFS) (p : String) : Option HostFile :=
  (host.find? (fun e => e.1 == p)).map (fun e => e.2)

/-- Store a file on the host under a path, replacing any previous
entry for that path. -/
def hostSet (host : HostFS) (p : String) (hf : HostFile) : HostFS :=
  (p, hf) :: host.filter (fun e => !(e.1 == p))

/-- FileSystem.CopyFile: open the source (a failure propagates before
the destination is touched), stat it for the permission bits, open the
destination with create-or-truncate semantics (os.OpenFile with
O_CREATE applies the permission argument only to a newly created file;
an existing file keeps its permissions and is truncated), copy the
full content (io.Copy drains the fresh reader of the source), and
close the source. Modelled with umask zero. -/
def FileSystem.CopyFile (fs : FileSystem) (host : HostFS)
    (bincludePath hostPath : String) :
    FileSystem × HostFS × Except PathError Unit :=
  match fs.Open bincludePath with
  | (fs₁, .error e) => (fs₁, host, .error e)
  | (fs₁, .ok h) =>
    match lookupFile fs₁ h with
    | none => (fs₁, host, .error (notFoundErr h))
    | some f =>
      (closeRecord fs₁ h,
       hostSet host hostPath
         ⟨match hostLookup host hostPath with
          | some old => old.perm
          | none => f.Mode.Perm, f.Content⟩,
       .ok ())

/-! ### Compression pipeline

Encode and Decompress from the source. The external libraries they
call are embedded as follows. Go encoding/hex is embedded exactly
(two lowercase hex digits per byte; decoding accepts both cases and
fails on an invalid digit or an odd-length input). Go compress/gzip
is modelled by its contract: a compressed stream carries the gzip
magic header and decompression inverts compression, failing on a
stream without the header. The mimetype sniffer
(github.com/gabriel-vasile/mimetype) is modelled by its magic-byte
tables for the formats named in the exclusion list, with the
octet-stream fallback otherwise. -/

/-- Go encoding/hex digit table, lowercase. -/
def hexDigitChar (n : Nat) : Nat := if n < 10 then 48 + n else 87 + n

/-- Go hex.EncodeToString on a byte list, as a byte list. -/
def hexEncode : List Nat → List Nat
  | [] => []
  | b :: rest => hexDigitChar (b / 16) :: hexDigitChar (b % 16) :: hexEncode rest

/-- Go hex decoding of one digit: 0-9, a-f, A-F. -/
def fromHexChar (c : Nat) : Option Nat :=
  if 48 ≤ c ∧ c ≤ 57 then some (c - 48)
  else if 97 ≤ c ∧ c ≤ 102 then some (c - 87)
  else if 65 ≤ c ∧ c ≤ 70 then some (c - 55)
  else none

/-- Go hex.Decode: pairs of digits; an invalid digit or a trailing
odd byte is an error. -/
def hexDecode : List Nat → Except String (List Nat)
  | [] => .ok []
  | [_] => .error "encoding hex odd length hex string"
  | a :: b :: rest =>
    match fromHexChar a, fromHexChar b with
    | some ha, some hb =>
      match hexDecode rest with
      | .ok tl => .ok ((ha * 16 + hb) :: tl)
      | .error e => .error e
    | _, _ => .error "encoding hex invalid byte"

/-- Modelled from the library contract of Go compress/gzip: the
writer produces a stream opening with the gzip magic bytes 31 139 and
carrying the payload recoverably. -/
def gzipCompress (data : List Nat) : List Nat := 31 :: 139 :: data

/-- Modelled from the library contract of Go compress/gzip:
gzip.NewReader rejects a stream without the magic header; reading the
stream recovers the bytes the writer consumed. -/
def gzipDecompress : List Nat → Option (List Nat)
  | 31 :: 139 :: rest => some rest
  | _ => none

/-- Modelled from the magic-byte tables of the mimetype library for
the formats of the exclusion list: PNG, JPEG, GIF, zip, gzip, 7z and
bzip2 signatures, with application/octet-stream as the fallback. -/
def mimetypeDetect (content : List Nat) : String :=
  if [137, 80, 78, 71, 13, 10, 26, 10].isPrefixOf content then "image/png"
  else if [255, 216, 255].isPrefixOf content then "image/jpeg"
  else if [71, 73, 70, 56, 55, 97].isPrefixOf content then "image/gif"
  else if [71, 73, 70, 56, 57, 97].isPrefixOf content then "image/gif"
  else if [80, 75, 3, 4].isPrefixOf content then "application/zip"
  else if [31, 139].isPrefixOf content then "application/gzip"
  else if [55, 122, 188, 175, 39, 28].isPrefixOf content then "application/x-7z-compressed"
  else if [66, 90, 104].isPrefixOf content then "application/x-bzip2"
  else "application/octet-stream"

/-- compressExcl from the source, verbatim. -/
def compressExcl : List String :=
  ["application/x-7z-compressed", "application/zip", "application/x-bzip2",
   "application/gzip", "image/png", "image/jpg", "image/gif"]

/-- shouldCompress: sniff the content and refuse when the sniffed
type is listed in compressExcl. -/
def shouldCompress (content : List Nat) : Bool :=
  !(compressExcl.contains (mimetypeDetect content))

/-- The body of the Encode loop for one record: directories and
non-compressible files are skipped entirely; otherwise the content is
run through the chosen algorithm (gzip, or the identity NopCloser for
None), hex-encoded, and the compression tag is set to the algorithm.
Writing to the in-memory buffer cannot fail, so Encode returns no
error. -/
def encodeFile (algo : Compression) (f : File) : File :=
  if f.Mode.isDir || !shouldCompress f.Content then f
  else
    let compressed := if algo = Compression.Gzip then gzipCompress f.Content else f.Content
    { f with Compression := algo, Content := hexEncode compressed }

/-- FileSystem.Encode: the loop body applied to every record. -/
def FileSystem.Encode (fs : FileSystem) (algo : Compression) : FileSystem :=
  ⟨fs.Files.map (fun pf => (pf.1, encodeFile algo pf.2))⟩

/-- FileSystem.Compress delegates to Encode. -/
def FileSystem.Compress (fs : FileSystem) (algo : Compression) : FileSystem :=
  fs.Encode algo

/-- The body of the Decompress loop for one record: hex-decode the
content, gunzip the result when the record is tagged Gzip, and store
the bytes back; either failure leaves the record as it was. -/
def decompressFile (f : File) : Except String File :=
  match hexDecode f.Content with
  | .error e => .error e
  | .ok dst =>
    match f.Compression with
    | Compression.Gzip =>
      match gzipDecompress dst with
      | none => .error "Gzip err"
      | some d => .ok { f with Content := d }
    | Compression.None => .ok { f with Content := dst }

/-- The Decompress loop: records are rewritten one at a time; the
first failure stops the loop, leaving that record and the rest
untouched (the source mutates the map in place and returns on the
first error). -/
def decompressFiles : List (String × File) → List (String × File) × Option String
  | [] => ([], none)
  | (p, f) :: rest =>
    match decompressFile f with
    | .error e => ((p, f) :: rest, some e)
    | .ok f₁ => ((p, f₁) :: (decompressFiles rest).1, (decompressFiles rest).2)

/-- FileSystem.Decompress: the loop over the whole store; the second
component is the error of the first failing record, if any. -/
def FileSystem.Decompress (fs : FileSystem) : FileSystem × Option String :=
  (⟨(decompressFiles fs.Files).1⟩, (decompressFiles fs.Files).2)

/-! ### Bundle partitioner (bincludegen) -/

/-- operatingSystems from gen.go, verbatim (freebsd is listed twice
there). -/
def operatingSystems : List String :=
  ["linux", "windows", "darwin", "freebsd", "js", "plan9", "freebsd",
   "dragonfly", "openbsd", "solaris", "aix", "android"]

/-- archs from gen.go, verbatim. -/
def archs : List String :=
  ["ppc64", "386", "amd64", "wasm", "arm", "ppc64le", "mips", "mips64",
   "mips64le", "mipsle", "s390x", "arm64"]

/-- The bundle-key derivation of buildFS: first scan the architecture
list, remembering the last architecture whose name followed by ".go"
ends the declaring file name; then scan the operating-system list,
each test using the tag accumulated so far; an empty result becomes
"default". The suffix tests do not require an underscore before the
matched name. -/
def buildTagOf (goFile : String) : String :=
  let t₁ := archs.foldl
    (fun tag arch => if strHasSuffix goFile (arch ++ ".go") then "_" ++ arch else tag) ""
  let t₂ := operatingSystems.foldl
    (fun tag sys => if strHasSuffix goFile (sys ++ tag ++ ".go") then "_" ++ sys ++ tag else tag) t₁
  if t₂.data.length = 0 then "default" else t₂

/-! ### Helper lemmas -/

instance : IsTotal FileInfo infoLe :=
  ⟨fun a b => le_total a.infoName b.infoName⟩

instance : IsTrans FileInfo infoLe :=
  ⟨fun _ _ _ hab hbc => le_trans hab hbc⟩

theorem lookupFile_setRecord (files : List (String × File)) (k p : String) (g : File → File) :
    lookupFile ⟨setRecord files k g⟩ p =
      if p = k then (lookupFile ⟨files⟩ p).map g else lookupFile ⟨files⟩ p := by
  induction files with
  | nil =>
    simp only [setRecord]
    split <;> rfl
  | cons e es ih =>
    obtain ⟨q, f⟩ := e
    simp only [setRecord]
    by_cases hqk : q = k
    · rw [if_pos (by simpa using hqk)]
      by_cases hqp : q = p
      · subst hqp
        rw [if_pos hqk]
        simp only [lookupFile]
        rw [List.find?_cons_of_pos _ (by simp), List.find?_cons_of_pos _ (by simp)]
        rfl
      · simp only [lookupFile] at ih ⊢
        rw [List.find?_cons_of_neg _ (by simp [hqp]),
          List.find?_cons_of_neg _ (by simp [hqp])]
        exact ih
    · rw [if_neg (by simpa using hqk)]
      by_cases hqp : q = p
      · subst hqp
        rw [if_neg hqk]
        simp only [lookupFile]
        rw [List.find?_cons_of_pos _ (by simp), List.find?_cons_of_pos _ (by simp)]
      · simp only [lookupFile] at ih ⊢
        rw [List.find?_cons_of_neg _ (by simp [hqp]),
          List.find?_cons_of_neg _ (by simp [hqp])]
        exact ih

theorem lookupFile_mapSnd (files : List (String × File)) (g : File → File) (p : String) :
    lookupFile ⟨files.map (fun pf => (pf.1, g pf.2))⟩ p =
      (lookupFile ⟨files⟩ p).map g := by
  induction files with
  | nil => rfl
  | cons e es ih =>
    obtain ⟨q, f⟩ := e
    simp only [List.map_cons]
    by_cases hqp : q = p
    · subst hqp
      simp only [lookupFile]
      rw [List.find?_cons_of_pos _ (by simp), List.find?_cons_of_pos _ (by simp)]
      rfl
    · simp only [lookupFile] at ih ⊢
      rw [List.find?_cons_of_neg _ (by simp [hqp]),
        List.find?_cons_of_neg _ (by simp [hqp])]
      exact ih

theorem lookupFile_encode (fs : FileSystem) (algo : Compression) (p : String) :
    lookupFile (fs.Encode algo) p = (lookupFile fs p).map (encodeFile algo) :=
  lookupFile_mapSnd fs.Files (encodeFile algo) p

theorem filter_statInfo_setRecord (files : List (String × File)) (k : String)
    (g : File → File) (d : String) (hg : ∀ x, File.statInfo (g x) = File.statInfo x) :
    ((setRecord files k g).filter (fun pf => pathDir pf.1 = d)).map (fun pf => pf.2.statInfo)
      = (files.filter (fun pf => pathDir pf.1 = d)).map (fun pf => pf.2.statInfo) := by
  induction files with
  | nil => rfl
  | cons e es ih =>
    obtain ⟨q, x⟩ := e
    simp only [setRecord]
    by_cases hqk : q = k
    · rw [if_pos (by simpa using hqk)]
      by_cases hq : pathDir q = d
      · rw [List.filter_cons_of_pos (by simpa using hq),
          List.filter_cons_of_pos (by simpa using hq), List.map_cons, List.map_cons, hg, ih]
      · rw [List.filter_cons_of_neg (by simpa using hq),
          List.filter_cons_of_neg (by simpa using hq)]
        exact ih
    · rw [if_neg (by simpa using hqk)]
      by_cases hq : pathDir q = d
      · rw [List.filter_cons_of_pos (by simpa using hq),
          List.filter_cons_of_pos (by simpa using hq), List.map_cons, List.map_cons, ih]
      · rw [List.filter_cons_of_neg (by simpa using hq),
          List.filter_cons_of_neg (by simpa using hq)]
        exact ih

theorem readdirOf_setRecord (files : List (String × File)) (k : String) (g : File → File)
    (f : File) (hg : ∀ x, File.statInfo (g x) = File.statInfo x) :
    FileSystem.readdirOf ⟨setRecord files k g⟩ f = FileSystem.readdirOf ⟨files⟩ f := by
  simp only [FileSystem.readdirOf]
  exact filter_statInfo_setRecord files k g _ hg

theorem fromHexChar_hexDigitChar (n : Nat) (h : n < 16) :
    fromHexChar (hexDigitChar n) = some n := by
  unfold hexDigitChar fromHexChar
  by_cases h10 : n < 10
  · rw [if_pos h10, if_pos (by omega)]
    congr 1
    omega
  · rw [if_neg h10, if_neg (by omega), if_pos (by omega)]
    congr 1
    omega

theorem hexDecode_hexEncode (l : List Nat) (h : ∀ b ∈ l, b < 256) :
    hexDecode (hexEncode l) = .ok l := by
  induction l with
  | nil => rfl
  | cons b rest ih =>
    have hb : b < 256 := h b (List.mem_cons_self b rest)
    have h1 : b / 16 < 16 := by omega
    have h2 : b % 16 < 16 := by omega
    simp only [hexEncode, hexDecode]
    rw [fromHexChar_hexDigitChar _ h1, fromHexChar_hexDigitChar _ h2,
      ih (fun x hx => h x (List.mem_cons_of_mem b hx))]
    dsimp only
    have hdm : b / 16 * 16 + b % 16 = b := by omega
    rw [hdm]

theorem decompressFile_compression (f f₁ : File) (h : decompressFile f = .ok f₁) :
    f₁.Compression = f.Compression := by
  unfold decompressFile at h
  split at h
  · exact absurd h (by simp)
  · split at h
    · split at h
      · exact absurd h (by simp)
      · injection h with h₁
        rw [← h₁]
    · injection h with h₁
      rw [← h₁]

theorem decompressFiles_find?_compression (l : List (String × File)) (p : String) :
    ((decompressFiles l).1.find? (fun pf => pf.1 == p)).map (fun pf => pf.2.Compression)
      = (l.find? (fun pf => pf.1 == p)).map (fun pf => pf.2.Compression) := by
  induction l with
  | nil => rfl
  | cons e es ih =>
    obtain ⟨q, f⟩ := e
    simp only [decompressFiles]
    cases hd : decompressFile f with
    | error e₁ => rfl
    | ok f₁ =>
      dsimp only
      by_cases hqp : q = p
      · subst hqp
        rw [List.find?_cons_of_pos _ (by simp), List.find?_cons_of_pos _ (by simp)]
        simp [decompressFile_compression f f₁ hd]
      · rw [List.find?_cons_of_neg _ (by simp [hqp]),
          List.find?_cons_of_neg _ (by simp [hqp])]
        exact ih

theorem decompressFile_encodeFile (f : File)
    (hb : ∀ b ∈ f.Content, b < 256)
    (hdir : f.Mode.isDir = true → f.Content = [] ∧ f.Compression = Compression.None)
    (hcmp : f.Mode.isDir = false → shouldCompress f.Content = true) :
    ∃ f₁, decompressFile (encodeFile Compression.Gzip f) = .ok f₁
      ∧ f₁.Content = f.Content := by
  cases hd : f.Mode.isDir with
  | true =>
    obtain ⟨hc, hn⟩ := hdir hd
    have he : encodeFile Compression.Gzip f = f := by
      unfold encodeFile
      rw [hd]
      rfl
    have hdec : decompressFile f = .ok { f with Content := [] } := by
      unfold decompressFile
      rw [hc, hn]
      rfl
    exact ⟨{ f with Content := [] }, by rw [he, hdec], by simp [hc]⟩
  | false =>
    have hsc := hcmp hd
    have hb2 : ∀ b ∈ gzipCompress f.Content, b < 256 := by
      intro b hbm
      simp only [gzipCompress, List.mem_cons] at hbm
      rcases hbm with rfl | rfl | hbm
      · omega
      · omega
      · exact hb b hbm
    have hhex := hexDecode_hexEncode _ hb2
    have he : encodeFile Compression.Gzip f
        = { f with Compression := Compression.Gzip,
                   Content := hexEncode (gzipCompress f.Content) } := by
      unfold encodeFile
      rw [hd, hsc]
      rfl
    have hdec :
        decompressFile
            { f with Compression := Compression.Gzip,
                     Content := hexEncode (gzipCompress f.Content) }
          = .ok { f with Compression := Compression.Gzip, Content := f.Content } := by
      unfold decompressFile
      dsimp only
      rw [hhex]
      rfl
    exact ⟨{ f with Compression := Compression.Gzip, Content := f.Content },
      by rw [he, hdec], rfl⟩

theorem encodeFile_excluded (algo : Compression) (f : File)
    (h : compressExcl.contains (mimetypeDetect f.Content) = true) :
    encodeFile algo f = f := by
  unfold encodeFile shouldCompress
  rw [h]
  simp

theorem decompressFiles_encode (l : List (String × File))
    (h : ∀ pf ∈ l, (∀ b ∈ pf.2.Content, b < 256)
        ∧ (pf.2.Mode.isDir = true → pf.2.Content = [] ∧ pf.2.Compression = Compression.None)
        ∧ (pf.2.Mode.isDir = false → shouldCompress pf.2.Content = true)) :
    (decompressFiles (l.map (fun pf => (pf.1, encodeFile Compression.Gzip pf.2)))).2 = none
    ∧ ∀ p, ((decompressFiles (l.map (fun pf => (pf.1, encodeFile Compression.Gzip pf.2)))).1.find?
          (fun pf => pf.1 == p)).map (fun pf => pf.2.Content)
        = (l.find? (fun pf => pf.1 == p)).map (fun pf => pf.2.Content) := by
  induction l with
  | nil => exact ⟨rfl, fun _ => rfl⟩
  | cons e es ih =>
    obtain ⟨q, f⟩ := e
    have hf := h (q, f) (List.mem_cons_self _ _)
    obtain ⟨f₁, hd, hc⟩ := decompressFile_encodeFile f hf.1 hf.2.1 hf.2.2
    have ihes := ih (fun pf hm => h pf (List.mem_cons_of_mem _ hm))
    constructor
    · simp only [List.map_cons, decompressFiles]
      rw [hd]
      exact ihes.1
    · intro p
      simp only [List.map_cons, decompressFiles]
      rw [hd]
      dsimp only
      by_cases hqp : q = p
      · subst hqp
        rw [List.find?_cons_of_pos _ (by simp), List.find?_cons_of_pos _ (by simp)]
        simp [hc]
      · rw [List.find?_cons_of_neg _ (by simp [hqp]),
          List.find?_cons_of_neg _ (by simp [hqp])]
        exact ihes.2 p

/-! ### Concrete stores used by witnesses and counterexamples -/

/-- A plain three-byte file under key "a". -/
def fileA : File := ⟨"a", ⟨false, 420⟩, 0, [1, 2, 3], Compression.None, none, ""⟩

/-- Store holding only fileA. -/
def fsA : FileSystem := ⟨[("a", fileA)]⟩

/-- Bytes opening with the PNG signature. -/
def pngBytes : List Nat := [137, 80, 78, 71, 13, 10, 26, 10, 0, 0, 0, 13]

/-- A record whose content sniffs as image/png. -/
def pngFile : File := ⟨"logo.png", ⟨false, 420⟩, 0, pngBytes, Compression.None, none, ""⟩

/-- Store holding only pngFile. -/
def fsPng : FileSystem := ⟨[("logo.png", pngFile)]⟩

/-- A small text file record. -/
def txtFile : File := ⟨"a.txt", ⟨false, 420⟩, 7, [104, 105], Compression.None, none, ""⟩

/-- A directory record with empty content. -/
def dirFile : File := ⟨"dir", ⟨true, 493⟩, 0, [], Compression.None, none, ""⟩

/-- A file inside the directory. -/
def bFile : File := ⟨"b.txt", ⟨false, 420⟩, 0, [119], Compression.None, none, ""⟩

/-- A second file inside the directory, named to sort before bFile. -/
def aFile : File := ⟨"a.txt", ⟨false, 420⟩, 0, [118], Compression.None, none, ""⟩

/-- Store with a directory, two files inside it and one outside. -/
def fsDocs : FileSystem :=
  ⟨[("dir", dirFile), ("dir/b.txt", bFile), ("dir/a.txt", aFile), ("a.txt", txtFile)]⟩

/-- A record tagged Gzip holding a hex-encoded gzip stream. -/
def gzFile : File :=
  ⟨"g", ⟨false, 420⟩, 0, hexEncode (gzipCompress [104]), Compression.Gzip, none, ""⟩

/-- Store holding only gzFile. -/
def fsGz : FileSystem := ⟨[("g", gzFile)]⟩

/-! ### Claims -/

/-- C8: after Close runs on a handle, the reader reference of the
shared record is nil and every subsequent Read through that handle
yields the nil-reader failure — never EOF, never bytes — and leaves
the state unchanged, so all later reads keep failing. -/
theorem closed_handle_read_fails (fs : FileSystem) (h : String) (n : Nat) :
    ((closeRecord fs h).ReadHandle h n).2 = ReadResult.nilReader
    ∧ ((closeRecord fs h).ReadHandle h n).1 = closeRecord fs h
    ∧ (∀ bs, ReadResult.nilReader ≠ ReadResult.bytes bs)
    ∧ ReadResult.nilReader ≠ ReadResult.eof := by
  have hl : lookupFile (closeRecord fs h) h = (lookupFile fs h).map closeUpd := by
    unfold closeRecord
    rw [lookupFile_setRecord, if_pos rfl]
  refine ⟨?_, ?_, fun bs => by simp, by simp⟩
  · unfold FileSystem.ReadHandle
    rw [hl]
    cases lookupFile fs h <;> rfl
  · unfold FileSystem.ReadHandle
    rw [hl]
    cases lookupFile fs h <;> rfl

/-- C10: Decompress rewrites the Content of the records it reaches
but never touches a Compression tag: the tag of every record survives
Decompress, and in particular a record tagged Gzip beforehand is
still tagged Gzip afterwards (the store is not returned to a
None-tagged state). -/
theorem decompress_preserves_tags (fs : FileSystem) (p : String) (f : File)
    (h : lookupFile fs p = some f) :
    ∃ f₁, lookupFile fs.Decompress.1 p = some f₁
      ∧ f₁.Compression = f.Compression
      ∧ (f.Compression = Compression.Gzip → f₁.Compression = Compression.Gzip) := by
  have hq := decompressFiles_find?_compression fs.Files p
  unfold lookupFile at h
  cases hf : fs.Files.find? (fun pf => pf.1 == p) with
  | none => rw [hf] at h; exact absurd h (by simp)
  | some pf =>
    rw [hf] at h hq
    have hpf : pf.2 = f := by simpa using h
    cases hf₁ : (decompressFiles fs.Files).1.find? (fun pf => pf.1 == p) with
    | none => rw [hf₁] at hq; exact absurd hq (by simp)
    | some pf₁ =>
      rw [hf₁] at hq
      have hcc : pf₁.2.Compression = pf.2.Compression := by simpa using hq
      refine ⟨pf₁.2, ?_, ?_, ?_⟩
      · show ((decompressFiles fs.Files).1.find? (fun pf => pf.1 == p)).map
            (fun pf => pf.2) = some pf₁.2
        rw [hf₁]
        rfl
      · rw [hcc, hpf]
      · intro hg
        rw [hcc, hpf, hg]

/-- C10 witness: a concrete Gzip-tagged record keeps its Gzip tag
through Decompress. -/
theorem decompress_preserves_tags_witness :
    ∃ f₁, lookupFile fsGz.Decompress.1 "g" = some f₁
      ∧ f₁.Compression = gzFile.Compression
      ∧ (gzFile.Compression = Compression.Gzip → f₁.Compression = Compression.Gzip) :=
  decompress_preserves_tags fsGz "g" gzFile (by decide)

/-- C2 counterexample: a record sniffed as image/png is in the
exclusion list, and Compress(Gzip) leaves its Content as the raw PNG
bytes — which differ from their hexadecimal encoding — instead of
replacing the Content with plain hex as the claim states. -/
theorem excluded_not_hex_encoded_cex :
    lookupFile (fsPng.Compress Compression.Gzip) "logo.png" = some pngFile
    ∧ pngFile.Content = pngBytes
    ∧ pngFile.Compression = Compression.None
    ∧ compressExcl.contains (mimetypeDetect pngBytes) = true
    ∧ hexEncode pngBytes ≠ pngBytes := by
  decide

/-- C2 (amended): for a record whose sniffed type is in the exclusion
set, Compress(Gzip) skips the record entirely: the stored record is
exactly the old one — tag still None if it was None, Content the raw
bytes, not hex-encoded. -/
theorem excluded_record_unchanged (fs : FileSystem) (p : String) (f : File)
    (hf : lookupFile fs p = some f)
    (hexcl : compressExcl.contains (mimetypeDetect f.Content) = true) :
    lookupFile (fs.Compress Compression.Gzip) p = some f := by
  unfold FileSystem.Compress
  rw [lookupFile_encode, hf]
  simp [encodeFile_excluded _ _ hexcl]

/-- C2 witness: the amended statement applied to the PNG store. -/
theorem excluded_record_unchanged_witness :
    lookupFile (fsPng.Compress Compression.Gzip) "logo.png" = some pngFile :=
  excluded_record_unchanged fsPng "logo.png" pngFile (by decide) (by decide)

/-- C3: the bundle-key derivation evaluated at the claimed inputs and
at a failing input: net_linux.go and net_windows_amd64.go produce
_linux and _windows_amd64 as documented, but swarm.go — whose name
before .go does not end in an underscore-separated suffix — produces
_arm rather than "default", because the code matches raw name suffixes
without requiring the underscore separator. -/
theorem buildTag_matches_without_underscore :
    buildTagOf "net_linux.go" = "_linux"
    ∧ buildTagOf "net_windows_amd64.go" = "_windows_amd64"
    ∧ buildTagOf "swarm.go" = "_arm"
    ∧ buildTagOf "swarm.go" ≠ "default" := by
  decide

instance {ε α : Type} [DecidableEq ε] [DecidableEq α] : DecidableEq (Except ε α) :=
  fun a b =>
    match a, b with
    | .ok x, .ok y =>
      if h : x = y then .isTrue (by rw [h]) else .isFalse (fun hh => h (by injection hh))
    | .error x, .error y =>
      if h : x = y then .isTrue (by rw [h]) else .isFalse (fun hh => h (by injection hh))
    | .ok _, .error _ => .isFalse (fun hh => by injection hh)
    | .error _, .ok _ => .isFalse (fun hh => by injection hh)

/-- C5 counterexample: with the store holding "a", Open "./a" strips
the prefix and succeeds, but Open ("./" ++ "./a") strips only one
leading "./" and fails, so Open("./" ++ p) and Open(p) disagree at
p = "./a". -/
theorem open_double_prefix_cex :
    (fsA.Open ("./" ++ "./a")).2 = .error (notFoundErr "./a")
    ∧ (fsA.Open "./a").2 = .ok "a"
    ∧ (fsA.Open ("./" ++ "./a")).2 ≠ (fsA.Open "./a").2 := by
  decide

/-- C5 (amended): Open on any name absent from the store after
stripping one leading "./" fails with the not-found PathError; and
Open("./" ++ p) and Open(p) agree for every p that does not itself
start with "./" — exactly one leading "./" occurrence is stripped,
and nothing else is normalized. -/
theorem open_notfound_and_prefix_strip :
    (∀ (fs : FileSystem) (name : String),
        lookupFile fs (trimDot name) = none →
        (fs.Open name).2 = .error (notFoundErr (trimDot name)))
    ∧ (∀ (fs : FileSystem) (p : String), p.data.take 2 ≠ ['.', '/'] →
        fs.Open ("./" ++ p) = fs.Open p) := by
  constructor
  · intro fs name h
    unfold FileSystem.Open
    rw [h]
  · intro fs p hp
    have hdata : ("./" ++ p).data = '.' :: '/' :: p.data := by
      rw [String.data_append]
      rfl
    have ht : trimDot ("./" ++ p) = p := by
      unfold trimDot
      rw [hdata]
      rfl
    have ht₂ : trimDot p = p := by
      unfold trimDot
      rw [if_neg hp]
    unfold FileSystem.Open
    rw [ht, ht₂]

/-- C5 witness: the amended statement applied to a missing path and
to the pair Open("./a") / Open("a") on the concrete store. -/
theorem open_notfound_and_prefix_strip_witness :
    (fsA.Open "missing.txt").2 = .error (notFoundErr (trimDot "missing.txt"))
    ∧ fsA.Open ("./" ++ "a") = fsA.Open "a" :=
  ⟨open_notfound_and_prefix_strip.1 fsA "missing.txt" (by decide),
   open_notfound_and_prefix_strip.2 fsA "a" (by decide)⟩

/-- C1: on a well-formed store (byte contents, directories empty with
tag None) all of whose non-directory records sniff outside the
exclusion set, Compress(Gzip) followed by Decompress succeeds and
restores every record's Content bit for bit; and on any store at all,
a record whose sniffed type is in the exclusion set is left completely
unchanged by Compress. -/
theorem compress_then_decompress_restores (fs : FileSystem)
    (hbytes : ∀ pf ∈ fs.Files, ∀ b ∈ pf.2.Content, b < 256)
    (hdirs : ∀ pf ∈ fs.Files, pf.2.Mode.isDir = true →
        pf.2.Content = [] ∧ pf.2.Compression = Compression.None)
    (hincl : ∀ pf ∈ fs.Files, pf.2.Mode.isDir = false →
        compressExcl.contains (mimetypeDetect pf.2.Content) = false) :
    ((fs.Compress Compression.Gzip).Decompress.2 = none
      ∧ ∀ p f, lookupFile fs p = some f →
          ∃ f₁, lookupFile (fs.Compress Compression.Gzip).Decompress.1 p = some f₁
            ∧ f₁.Content = f.Content)
    ∧ ∀ (g : FileSystem) (p : String) (f : File), lookupFile g p = some f →
        compressExcl.contains (mimetypeDetect f.Content) = true →
        lookupFile (g.Compress Compression.Gzip) p = some f := by
  have hgood : ∀ pf ∈ fs.Files, (∀ b ∈ pf.2.Content, b < 256)
      ∧ (pf.2.Mode.isDir = true → pf.2.Content = [] ∧ pf.2.Compression = Compression.None)
      ∧ (pf.2.Mode.isDir = false → shouldCompress pf.2.Content = true) := by
    intro pf hm
    refine ⟨hbytes pf hm, hdirs pf hm, fun hnd => ?_⟩
    unfold shouldCompress
    rw [hincl pf hm hnd]
    rfl
  have hmain := decompressFiles_encode fs.Files hgood
  refine ⟨⟨hmain.1, ?_⟩, ?_⟩
  · intro p f hf
    have h2 := hmain.2 p
    unfold lookupFile at hf
    cases hfind : fs.Files.find? (fun pf => pf.1 == p) with
    | none => rw [hfind] at hf; exact absurd hf (by simp)
    | some pf =>
      rw [hfind] at hf h2
      have hpf : pf.2 = f := by simpa using hf
      cases hfind₁ : (decompressFiles (fs.Files.map
          (fun pf => (pf.1, encodeFile Compression.Gzip pf.2)))).1.find?
          (fun pf => pf.1 == p) with
      | none => rw [hfind₁] at h2; exact absurd h2 (by simp)
      | some pf₁ =>
        rw [hfind₁] at h2
        have hcc : pf₁.2.Content = pf.2.Content := by simpa using h2
        refine ⟨pf₁.2, ?_, by rw [hcc, hpf]⟩
        show ((decompressFiles (fs.Files.map
            (fun pf => (pf.1, encodeFile Compression.Gzip pf.2)))).1.find?
            (fun pf => pf.1 == p)).map (fun pf => pf.2) = some pf₁.2
        rw [hfind₁]
        rfl
  · intro g p f hf hexcl
    unfold FileSystem.Compress
    rw [lookupFile_encode, hf]
    simp [encodeFile_excluded _ _ hexcl]

/-- C1 witness: the round trip evaluated on a concrete store holding
a directory and text files. -/
theorem compress_then_decompress_restores_witness :
    (fsDocs.Compress Compression.Gzip).Decompress.2 = none
    ∧ ∃ f₁, lookupFile (fsDocs.Compress Compression.Gzip).Decompress.1 "a.txt" = some f₁
        ∧ f₁.Content = txtFile.Content := by
  have h := compress_then_decompress_restores fsDocs (by decide) (by decide) (by decide)
  exact ⟨h.1.1, h.1.2 "a.txt" txtFile (by decide)⟩

theorem hostLookup_hostSet (host : HostFS) (p : String) (hfile : HostFile) :
    hostLookup (hostSet host p hfile) p = some hfile := by
  unfold hostLookup hostSet
  rw [List.find?_cons_of_pos _ (by simp)]
  rfl

/-- C6 counterexample: two successive Opens of "a" both hand back the
shared record under key "a"; immediately after the second Open the
shared cursor sits at 0, and reading one byte through the handle of
the second call moves the cursor that the handle of the first call
observes from 0 to 1. -/
theorem open_cursor_shared_cex :
    (fsA.Open "a").2 = .ok "a"
    ∧ ((fsA.Open "a").1.Open "a").2 = .ok "a"
    ∧ (lookupFile ((fsA.Open "a").1.Open "a").1 "a").map File.reader
        = some (some ([1, 2, 3], 0))
    ∧ ((((fsA.Open "a").1.Open "a").1.ReadHandle "a" 1).2 = ReadResult.bytes [1])
    ∧ (lookupFile ((((fsA.Open "a").1.Open "a").1.ReadHandle "a" 1).1) "a").map File.reader
        = some (some ([1, 2, 3], 1))
    ∧ some (some (([1, 2, 3] : List Nat), (1 : Nat)))
        ≠ some (some (([1, 2, 3] : List Nat), (0 : Nat))) := by
  decide

/-- C6 (amended): each Open does construct a fresh reader positioned
at offset 0, but stores it in the one record shared by all handles
for that path, and successive Opens of the same path return that same
record as the handle; consequently, after a read of n bytes through
the handle of the second Open, the cursor observed through the handle
of the first Open has advanced to min n (content length) instead of
staying untouched. -/
theorem open_fresh_reader_shared_record (fs : FileSystem) (p : String) (f : File) (n : Nat)
    (hf : lookupFile fs (trimDot p) = some f) :
    (fs.Open p).2 = .ok (trimDot p)
    ∧ ((fs.Open p).1.Open p).2 = .ok (trimDot p)
    ∧ (lookupFile ((fs.Open p).1.Open p).1 (trimDot p)).map File.reader
        = some (some (f.Content, 0))
    ∧ (lookupFile ((((fs.Open p).1.Open p).1.ReadHandle (trimDot p) n).1) (trimDot p)).map
        File.reader = some (some (f.Content, min n f.Content.length)) := by
  have hopen : fs.Open p
      = (⟨setRecord fs.Files (trimDot p) (openUpd (trimDot p))⟩, .ok (trimDot p)) := by
    unfold FileSystem.Open
    rw [hf]
  have hl₁ : lookupFile (⟨setRecord fs.Files (trimDot p) (openUpd (trimDot p))⟩ : FileSystem)
      (trimDot p) = some (openUpd (trimDot p) f) := by
    rw [lookupFile_setRecord, if_pos rfl, hf]
    rfl
  have hopen₂ : (fs.Open p).1.Open p
      = (⟨setRecord (setRecord fs.Files (trimDot p) (openUpd (trimDot p)))
            (trimDot p) (openUpd (trimDot p))⟩, .ok (trimDot p)) := by
    rw [hopen]
    unfold FileSystem.Open
    rw [hl₁]
  have hl₂ : lookupFile (⟨setRecord (setRecord fs.Files (trimDot p) (openUpd (trimDot p)))
        (trimDot p) (openUpd (trimDot p))⟩ : FileSystem) (trimDot p)
      = some (openUpd (trimDot p) (openUpd (trimDot p) f)) := by
    rw [lookupFile_setRecord, if_pos rfl, hl₁]
    rfl
  have hl₂' : lookupFile ((fs.Open p).1.Open p).1 (trimDot p)
      = some (openUpd (trimDot p) (openUpd (trimDot p) f)) := by
    rw [hopen₂]
    exact hl₂
  refine ⟨by rw [hopen], by rw [hopen₂], by rw [hl₂']; rfl, ?_⟩
  unfold FileSystem.ReadHandle
  rw [hl₂']
  dsimp only [openUpd]
  by_cases hlen : f.Content.length ≤ 0
  · rw [if_pos hlen]
    dsimp only
    rw [hl₂']
    have h0 : f.Content.length = 0 := Nat.le_zero.mp hlen
    rw [h0, Nat.min_zero]
    rfl
  · rw [if_neg hlen]
    dsimp only
    rw [hopen₂]
    dsimp only
    rw [lookupFile_setRecord, if_pos rfl, hl₂]
    simp [openUpd, List.length_take]

/-- C6 witness: the amended statement applied to the concrete store. -/
theorem open_fresh_reader_shared_record_witness :
    (fsA.Open "a").2 = .ok (trimDot "a")
    ∧ ((fsA.Open "a").1.Open "a").2 = .ok (trimDot "a")
    ∧ (lookupFile ((fsA.Open "a").1.Open "a").1 (trimDot "a")).map File.reader
        = some (some (fileA.Content, 0))
    ∧ (lookupFile ((((fsA.Open "a").1.Open "a").1.ReadHandle (trimDot "a") 1).1)
        (trimDot "a")).map File.reader
        = some (some (fileA.Content, min 1 fileA.Content.length)) :=
  open_fresh_reader_shared_record fsA "a" fileA 1 (by decide)

/-- C7: CopyFile on a present source succeeds and stores the full
source content at the destination, giving a previously absent
destination the permission bits of the source record; on a missing
source it fails with the not-found PathError and leaves the host
filesystem untouched. -/
theorem copyfile_content_perm_notfound (fs : FileSystem) (host : HostFS)
    (src dst : String) :
    (lookupFile fs (trimDot src) = none →
        (fs.CopyFile host src dst).2.2 = .error (notFoundErr (trimDot src))
        ∧ (fs.CopyFile host src dst).2.1 = host)
    ∧ (∀ f, lookupFile fs (trimDot src) = some f →
        (fs.CopyFile host src dst).2.2 = .ok ()
        ∧ ∃ hfile, hostLookup (fs.CopyFile host src dst).2.1 dst = some hfile
            ∧ hfile.hostContent = f.Content
            ∧ (hostLookup host dst = none → hfile.perm = f.Mode.Perm)) := by
  constructor
  · intro h
    unfold FileSystem.CopyFile FileSystem.Open
    rw [h]
    exact ⟨rfl, rfl⟩
  · intro f hf
    have hopen : fs.Open src
        = (⟨setRecord fs.Files (trimDot src) (openUpd (trimDot src))⟩, .ok (trimDot src)) := by
      unfold FileSystem.Open
      rw [hf]
    have hl₁ : lookupFile (⟨setRecord fs.Files (trimDot src) (openUpd (trimDot src))⟩ :
        FileSystem) (trimDot src) = some (openUpd (trimDot src) f) := by
      rw [lookupFile_setRecord, if_pos rfl, hf]
      rfl
    unfold FileSystem.CopyFile
    rw [hopen]
    dsimp only
    rw [hl₁]
    dsimp only
    refine ⟨rfl, ⟨_, hostLookup_hostSet host dst _, rfl, ?_⟩⟩
    intro hnone
    rw [hnone]
    rfl

/-- C7 witness: copying the concrete file onto an empty host. -/
theorem copyfile_content_perm_notfound_witness :
    (fsA.CopyFile [] "a" "out").2.2 = .ok ()
    ∧ ∃ hfile, hostLookup (fsA.CopyFile [] "a" "out").2.1 "out" = some hfile
        ∧ hfile.hostContent = fileA.Content
        ∧ (hostLookup [] "out" = none → hfile.perm = fileA.Mode.Perm) :=
  (copyfile_content_perm_notfound fsA [] "a" "out").2 fileA (by decide)

/-- C9: Open hands back the record stored in the map itself — after
Open the store holds that record with a fresh reader — and Stat on
the same path, being open-stat-close on the shared record, leaves the
record's reader nil, after which a Read through the handle of the
earlier Open fails with the nil-reader failure. -/
theorem stat_closes_shared_record (fs : FileSystem) (p : String) (f : File) (n : Nat)
    (hf : lookupFile fs (trimDot p) = some f) :
    (fs.Open p).2 = .ok (trimDot p)
    ∧ lookupFile (fs.Open p).1 (trimDot p) = some (openUpd (trimDot p) f)
    ∧ ((fs.Open p).1.Stat p).2 = .ok f.statInfo
    ∧ (lookupFile ((fs.Open p).1.Stat p).1 (trimDot p)).map File.reader = some none
    ∧ (((fs.Open p).1.Stat p).1.ReadHandle (trimDot p) n).2 = ReadResult.nilReader := by
  have hopen : fs.Open p
      = (⟨setRecord fs.Files (trimDot p) (openUpd (trimDot p))⟩, .ok (trimDot p)) := by
    unfold FileSystem.Open
    rw [hf]
  have hl₁ : lookupFile (⟨setRecord fs.Files (trimDot p) (openUpd (trimDot p))⟩ : FileSystem)
      (trimDot p) = some (openUpd (trimDot p) f) := by
    rw [lookupFile_setRecord, if_pos rfl, hf]
    rfl
  have hopen₂ : (fs.Open p).1.Open p
      = (⟨setRecord (setRecord fs.Files (trimDot p) (openUpd (trimDot p)))
            (trimDot p) (openUpd (trimDot p))⟩, .ok (trimDot p)) := by
    rw [hopen]
    unfold FileSystem.Open
    rw [hl₁]
  have hl₂ : lookupFile (⟨setRecord (setRecord fs.Files (trimDot p) (openUpd (trimDot p)))
        (trimDot p) (openUpd (trimDot p))⟩ : FileSystem) (trimDot p)
      = some (openUpd (trimDot p) (openUpd (trimDot p) f)) := by
    rw [lookupFile_setRecord, if_pos rfl, hl₁]
    rfl
  have hstat : (fs.Open p).1.Stat p
      = (closeRecord ⟨setRecord (setRecord fs.Files (trimDot p) (openUpd (trimDot p)))
            (trimDot p) (openUpd (trimDot p))⟩ (trimDot p),
         .ok (openUpd (trimDot p) (openUpd (trimDot p) f)).statInfo) := by
    unfold FileSystem.Stat
    rw [hopen₂]
    dsimp only
    rw [hl₂]
  have hl₃ : lookupFile (closeRecord ⟨setRecord (setRecord fs.Files (trimDot p)
        (openUpd (trimDot p))) (trimDot p) (openUpd (trimDot p))⟩ (trimDot p)) (trimDot p)
      = some (closeUpd (openUpd (trimDot p) (openUpd (trimDot p) f))) := by
    unfold closeRecord
    rw [lookupFile_setRecord, if_pos rfl, hl₂]
    rfl
  refine ⟨by rw [hopen], by rw [hopen]; exact hl₁, by rw [hstat]; rfl, ?_, ?_⟩
  · rw [hstat]
    dsimp only
    rw [hl₃]
    rfl
  · rw [hstat]
    dsimp only
    unfold FileSystem.ReadHandle
    rw [hl₃]
    rfl

/-- C9 witness: the statement applied to the concrete store. -/
theorem stat_closes_shared_record_witness :
    (fsA.Open "a").2 = .ok (trimDot "a")
    ∧ lookupFile (fsA.Open "a").1 (trimDot "a") = some (openUpd (trimDot "a") fileA)
    ∧ ((fsA.Open "a").1.Stat "a").2 = .ok fileA.statInfo
    ∧ (lookupFile ((fsA.Open "a").1.Stat "a").1 (trimDot "a")).map File.reader = some none
    ∧ (((fsA.Open "a").1.Stat "a").1.ReadHandle (trimDot "a") 2).2 = ReadResult.nilReader :=
  stat_closes_shared_record fsA "a" fileA 2 (by decide)

theorem ReadDir_eq (fs : FileSystem) (dirname : String) (f₀ : File)
    (hf : lookupFile fs (trimDot dirname) = some f₀) :
    fs.ReadDir dirname =
      (closeRecord ⟨setRecord fs.Files (trimDot dirname) (openUpd (trimDot dirname))⟩
          (trimDot dirname),
       .ok (List.insertionSort infoLe
         ((fs.Files.filter (fun pf => pathDir pf.1 =
             (if f₀.Mode.isDir then trimDot dirname else pathDir (trimDot dirname)))).map
           (fun pf => pf.2.statInfo)))) := by
  have hopen : fs.Open dirname
      = (⟨setRecord fs.Files (trimDot dirname) (openUpd (trimDot dirname))⟩,
         .ok (trimDot dirname)) := by
    unfold FileSystem.Open
    rw [hf]
  have hl₁ : lookupFile (⟨setRecord fs.Files (trimDot dirname)
      (openUpd (trimDot dirname))⟩ : FileSystem) (trimDot dirname)
      = some (openUpd (trimDot dirname) f₀) := by
    rw [lookupFile_setRecord, if_pos rfl, hf]
    rfl
  have hrd : FileSystem.readdirOf
      (⟨setRecord fs.Files (trimDot dirname) (openUpd (trimDot dirname))⟩ : FileSystem)
      (openUpd (trimDot dirname) f₀)
      = (fs.Files.filter (fun pf => pathDir pf.1 =
          (if f₀.Mode.isDir then trimDot dirname else pathDir (trimDot dirname)))).map
        (fun pf => pf.2.statInfo) := by
    unfold FileSystem.readdirOf
    exact filter_statInfo_setRecord fs.Files (trimDot dirname)
      (openUpd (trimDot dirname)) _ (fun x => rfl)
  unfold FileSystem.ReadDir
  rw [hopen]
  dsimp only
  rw [hl₁]
  dsimp only
  rw [hrd]

/-- C4: ReadDir of a present path returns exactly the stat snapshots
of the records whose computed parent is the containing directory of
the opened entry (the entry itself when it is a directory, the parent
of its path otherwise), sorted by name, and the immediately repeated
call on the state the first call returns yields the identical ordered
list. -/
theorem readdir_sorted_and_deterministic (fs : FileSystem) (dirname : String) (f₀ : File)
    (hf : lookupFile fs (trimDot dirname) = some f₀) :
    ∃ l, (fs.ReadDir dirname).2 = .ok l
      ∧ List.Sorted infoLe l
      ∧ l.Perm ((fs.Files.filter (fun pf => pathDir pf.1 =
          (if f₀.Mode.isDir then trimDot dirname else pathDir (trimDot dirname)))).map
          (fun pf => pf.2.statInfo))
      ∧ ((fs.ReadDir dirname).1.ReadDir dirname).2 = .ok l := by
  have h₁ := ReadDir_eq fs dirname f₀ hf
  refine ⟨_, by rw [h₁], List.sorted_insertionSort infoLe _,
    List.perm_insertionSort infoLe _, ?_⟩
  have hf₂ : lookupFile (fs.ReadDir dirname).1 (trimDot dirname)
      = some (closeUpd (openUpd (trimDot dirname) f₀)) := by
    rw [h₁]
    show lookupFile (closeRecord ⟨setRecord fs.Files (trimDot dirname)
        (openUpd (trimDot dirname))⟩ (trimDot dirname)) (trimDot dirname) = _
    unfold closeRecord
    rw [lookupFile_setRecord, if_pos rfl]
    rw [lookupFile_setRecord, if_pos rfl, hf]
    rfl
  have h₂ := ReadDir_eq (fs.ReadDir dirname).1 dirname
    (closeUpd (openUpd (trimDot dirname) f₀)) hf₂
  rw [h₂]
  refine congrArg Except.ok (congrArg (List.insertionSort infoLe) ?_)
  have hfiles : (fs.ReadDir dirname).1.Files
      = setRecord (setRecord fs.Files (trimDot dirname) (openUpd (trimDot dirname)))
          (trimDot dirname) closeUpd := by
    rw [h₁]
    rfl
  rw [hfiles]
  show ((setRecord (setRecord fs.Files (trimDot dirname) (openUpd (trimDot dirname)))
      (trimDot dirname) closeUpd).filter (fun pf => pathDir pf.1 =
        (if f₀.Mode.isDir then trimDot dirname else pathDir (trimDot dirname)))).map
      (fun pf => pf.2.statInfo) = _
  rw [filter_statInfo_setRecord _ (trimDot dirname) closeUpd _ (fun x => rfl),
    filter_statInfo_setRecord _ (trimDot dirname) (openUpd (trimDot dirname)) _
      (fun x => rfl)]

/-- C4 witness: ReadDir of the concrete directory returns the two
child entries sorted by name, twice. -/
theorem readdir_sorted_and_deterministic_witness :
    ∃ l, (fsDocs.ReadDir "dir").2 = .ok l
      ∧ List.Sorted infoLe l
      ∧ l.Perm ((fsDocs.Files.filter (fun pf => pathDir pf.1 =
          (if dirFile.Mode.isDir then trimDot "dir" else pathDir (trimDot "dir")))).map
          (fun pf => pf.2.statInfo))
      ∧ ((fsDocs.ReadDir "dir").1.ReadDir "dir").2 = .ok l :=
  readdir_sorted_and_deterministic fsDocs "dir" dirFile (by decide)

end Binclude
